import Mathlib

/-!
Verification of the event-filtering and recurrence-expansion subsystem of the
PrideLondon-RN repository.

The development shallowly embeds:
* the date/time utilities of `src/lib/date` (absent from the sources, modelled
  from the spec),
* `src/data/event.js` (`decodeEvent`, `expandRecurringEvents` and helpers),
* the composite filter builders of `src/selectors/event-filters`
  (absent from the sources; only their tests are present, modelled from the
  spec and those tests),
* `toggleTagFilter` from `src/screens/FilterModal/component.js`.
-/

namespace PrideEvents

/-! ## Date/time model

Modelled from the spec: `src/lib/date` (`set`, `diff`, `add`, `toFormat`,
`FORMAT_EUROPEAN_DATE`, `FORMAT_CONTENTFUL_ISO`) is not among the sources.
The spec describes the utilities as parsing, formatting and arithmetic
(diff, add, set-component) over date strings in a display format and a
storage ISO format, where recurrence handling substitutes year/month/day
components while preserving the time of day, offsets are applied linearly,
and deduplication works by exact string equality after normalisation to the
ISO format.  Accordingly a timestamp string in the normalised storage format
is identified with its instant, measured in minutes on a linear time scale
(`Timestamp`); `toFormat _ FORMAT_CONTENTFUL_ISO` is then the identity
(normalisation), and the civil-calendar structure is recovered through
`daysFromCivil` / `civilFromDays` (proleptic Gregorian calendar).
-/

/-- Days elapsed since 0000-03-01 of the proleptic Gregorian calendar for a
civil date `(y, m, d)` (valid for `y ≥ 1`; total on all of `Nat`). -/
def daysFromCivil (y m d : Nat) : Nat :=
  let y' := if m ≤ 2 then y - 1 else y
  let era := y' / 400
  let yoe := y' % 400
  let mp := (m + 9) % 12
  let doy := (153 * mp + 2) / 5 + d - 1
  let doe := yoe * 365 + yoe / 4 - yoe / 100 + doy
  era * 146097 + doe

/-- Civil date `(y, m, d)` of the day numbered `z` by `daysFromCivil`. -/
def civilFromDays (z : Nat) : Nat × Nat × Nat :=
  let era := z / 146097
  let doe := z % 146097
  let yoe := (doe - doe / 1460 + doe / 36524 - doe / 146096) / 365
  let doy := doe - (365 * yoe + yoe / 4 - yoe / 100)
  let mp := (5 * doy + 2) / 153
  let d := doy - (153 * mp + 2) / 5 + 1
  let m := if mp < 10 then mp + 3 else mp - 9
  let y := yoe + era * 400 + (if m ≤ 2 then 1 else 0)
  (y, m, d)

/-- An instant, in minutes on a linear time scale: a timestamp string in the
normalised storage format (`FORMAT_CONTENTFUL_ISO`) is identified with this
value. -/
abbrev Timestamp := Int

/-- Source `diff` of `src/lib/date`: the offset between two instants. -/
def diffDate (a b : Timestamp) : Int := a - b

/-- Source `add` of `src/lib/date`: apply an offset to an instant. -/
def addToDate (t : Timestamp) (delta : Int) : Timestamp := t + delta

/-- Source `set` of `src/lib/date` restricted to the year/month/day components, as
used by `recurrenceDateToStartTime`: replace the calendar date of `t` while
preserving its time of day.  A two-digit year is read as 20xx (spec §3:
"2-digit year assumed 20xx"). -/
def setDate (t : Timestamp) (year month day : Nat) : Timestamp :=
  let y := if year < 100 then 2000 + year else year
  (daysFromCivil y month day : Int) * 1440 + Int.emod t 1440

/-- Source `toFormat value FORMAT_EUROPEAN_DATE`: the European display date
`"D/M/YY"` (non-zero-padded) of the instant's calendar date. -/
def formatEuropeanDate (t : Timestamp) : String :=
  let c := civilFromDays (Int.toNat (Int.fdiv t 1440))
  toString c.2.2 ++ "/" ++ toString c.2.1 ++ "/" ++ toString (c.1 % 100)

/-! ## The Event record (`src/data/event.js`, type `Event`)

`startTime` and `endTime` hold normalised storage-format timestamps (the
upstream decoder guarantees well-formedness, spec §3 invariant), so they are
represented by their instants.  `FieldRef` values are opaque structural
references, represented by their content id. -/

/-- Opaque content reference (`FieldRef`), carried but never interpreted by
the recurrence subsystem. -/
structure FieldRef where
  sysId : String
deriving DecidableEq, Repr

/-- Geographic point of `Event.fields.location`. -/
structure Location where
  lat : Int
  lon : Int
deriving DecidableEq, Repr

/-- The `fields` part of a decoded `Event` (source lines 59–84). -/
structure EventFields where
  name : String
  eventCategories : List String
  audience : List String
  startTime : Timestamp
  endTime : Timestamp
  location : Location
  addressLine1 : Option String
  addressLine2 : Option String
  city : Option String
  postcode : Option String
  locationName : String
  eventPriceLow : Int
  eventPriceHigh : Int
  accessibilityOptions : List String
  eventDescription : String
  accessibilityDetails : Option String
  email : Option String
  phone : Option String
  ticketingUrl : Option String
  venueDetails : List String
  individualEventPicture : FieldRef
  eventsListPicture : FieldRef
  performances : List FieldRef
  recurrenceDates : List String
deriving DecidableEq, Repr

/-- A decoded `Event` (source lines 53–85). -/
structure Event where
  contentType : String
  id : String
  locale : String
  revision : Int
  fields : EventFields
deriving DecidableEq, Repr

/-! ## Recurrence expansion (`src/data/event.js` lines 195–247) -/

/-- Split a character list at every `/` (the `recurrence.split("/")` of
`recurrenceDateToStartTime`). -/
def splitSlash : List Char → List Char → List (List Char)
  | [], acc => [acc.reverse]
  | c :: cs, acc =>
    if c = '/' then acc.reverse :: splitSlash cs []
    else splitSlash cs (c :: acc)

/-- Numeric value of a digit string (JS numeric coercion of a well-formed
component; total, garbage on malformed input, which the spec declares a
precondition violation rejected upstream). -/
def charsToNat (cs : List Char) : Nat :=
  cs.foldl (fun n c => n * 10 + (c.toNat - 48)) 0

/-- Source `recurrenceDateToStartTime` (lines 218–233): split a recurrence
entry `"day/month/year"` and substitute the components into the original
start time, yielding the candidate start instant in the storage format. -/
def recurrenceDateToStartTime (originalStartTime : Timestamp)
    (recurrence : String) : Timestamp :=
  let parts := splitSlash recurrence.data []
  let recurrenceDay := charsToNat (parts.getD 0 [])
  let recurrenceMonth := charsToNat (parts.getD 1 [])
  let recurrenceYear := charsToNat (parts.getD 2 [])
  setDate originalStartTime recurrenceYear recurrenceMonth recurrenceDay

/-- Source `generateRecurringEvent` (lines 197–216).  The
`R.mergeDeepRight` of the source, specialised to the fixed `Event` shape,
overrides exactly `fields.startTime`, `fields.endTime`,
`fields.recurrenceDates` and `id`, leaving every other component of the
record untouched. -/
def generateRecurringEvent (event : Event)
    (recurrenceStartTime : Timestamp) : Event :=
  let startTime := event.fields.startTime
  let endTime := event.fields.endTime
  let difference := diffDate recurrenceStartTime startTime
  let recurrenceEndTime := addToDate endTime difference
  { event with
    id := event.id ++ "-recurrence-" ++ formatEuropeanDate recurrenceStartTime
    fields := { event.fields with
      startTime := recurrenceStartTime
      endTime := recurrenceEndTime
      recurrenceDates :=
        formatEuropeanDate startTime :: event.fields.recurrenceDates } }

/-- Membership test used by the model of `R.uniq` (kept explicitly recursive
so that concrete instances evaluate by `decide`). -/
def memb {α : Type} [DecidableEq α] (x : α) : List α → Bool
  | [] => false
  | y :: ys => if x = y then true else memb x ys

/-- Auxiliary recursion of `R.uniq`: keeps the first occurrence of every element, in order; `seen`
accumulates the elements already emitted. -/
def uniqAux {α : Type} [DecidableEq α] (seen : List α) : List α → List α
  | [] => []
  | x :: xs =>
    if memb x seen then uniqAux seen xs
    else x :: uniqAux (x :: seen) xs

/-- Model of `R.uniq`: deduplicate, keeping first occurrences in order. -/
def uniq {α : Type} [DecidableEq α] (l : List α) : List α := uniqAux [] l

/-- Source `expandRecurringEvents` (lines 235–247). -/
def expandRecurringEvents (event : Event) : List Event :=
  let recurrenceStartTimes :=
    event.fields.startTime ::
      event.fields.recurrenceDates.map
        (recurrenceDateToStartTime event.fields.startTime)
  let events :=
    ((uniq recurrenceStartTimes).drop 1).map (generateRecurringEvent event)
  event :: events

/-! ## JSON values and decoder combinators

Modelled from the spec: the combinator library `src/lib/decode` is not among
the sources.  Spec §4.1 describes a decoder for `A` as a pure function from
an arbitrary untyped input value to either a value of `A` or a typed decode
failure carrying a path and a message, with combinators `field`, `at`,
`array`, `shape`, `oneOf`, `value`, `maybe`, `succeed` and `map`.  JSON
numbers are modelled as integers (no claim depends on non-integral
numerics). -/

/-- Untyped JSON-like content value. -/
inductive Json where
  | null : Json
  | str : String → Json
  | num : Int → Json
  | bool : Bool → Json
  | arr : List Json → Json
  | obj : List (String × Json) → Json

/-- A decode failure: a path of field names / indices and a message. -/
structure DecodeError where
  path : List String
  message : String

/-- A decoder: input value to either a result or a path-qualified failure. -/
def Decoder (α : Type) : Type := Json → Except DecodeError α

/-- Look up a key among the entries of a JSON object. -/
def lookupEntry (name : String) : List (String × Json) → Option Json
  | [] => none
  | (k, v) :: rest => if k = name then some v else lookupEntry name rest

/-- The value reached from `j` by following a path of field names (used to
state properties of decoders against the raw input). -/
def getPath : Json → List String → Option Json
  | j, [] => some j
  | .obj entries, k :: ks =>
    match lookupEntry k entries with
    | some v => getPath v ks
    | none => none
  | _, _ :: _ => none

namespace decode

/-- Qualify a failure with the field name it occurred under. -/
def prependPath {α : Type} (seg : String) :
    Except DecodeError α → Except DecodeError α
  | .ok a => .ok a
  | .error e => .error { e with path := seg :: e.path }

/-- Combinator `decode.field name d`: fails with a missing-field error if `name` is
absent, else recurses into the field's value. -/
def field {α : Type} (name : String) (d : Decoder α) : Decoder α := fun j =>
  match j with
  | .obj entries =>
    match lookupEntry name entries with
    | some v => prependPath name (d v)
    | none => .error ⟨[name], "missing field"⟩
  | _ => .error ⟨[name], "expected an object"⟩

/-- Combinator `decode.at path d`: repeated `field` traversal, reporting the full path
on failure (source name `at`, a reserved word here). -/
def atPath {α : Type} (path : List String) (d : Decoder α) : Decoder α :=
  match path with
  | [] => d
  | k :: ks => field k (atPath ks d)

/-- Combinator `decode.string`. -/
def string : Decoder String := fun j =>
  match j with
  | .str s => .ok s
  | _ => .error ⟨[], "expected a string"⟩

/-- Combinator `decode.number` (JSON numbers modelled as integers). -/
def number : Decoder Int := fun j =>
  match j with
  | .num n => .ok n
  | _ => .error ⟨[], "expected a number"⟩

/-- Combinator `decode.value literal`: succeeds only on strict equality with the
literal (used with string literals in the sources). -/
def value (lit : String) : Decoder String := fun j =>
  match j with
  | .str s => if s = lit then .ok s else .error ⟨[], "expected literal"⟩
  | _ => .error ⟨[], "expected literal"⟩

/-- Elementwise decoding of an array, the failure annotated with the index
of the first failing element. -/
def arrayAux {α : Type} (d : Decoder α) :
    Nat → List Json → Except DecodeError (List α)
  | _, [] => .ok []
  | i, x :: xs =>
    match d x with
    | .error e => .error { e with path := toString i :: e.path }
    | .ok a =>
      match arrayAux d (i + 1) xs with
      | .ok rest => .ok (a :: rest)
      | .error e => .error e

/-- Combinator `decode.array d`: decodes a sequence, failing on the first failing
element. -/
def array {α : Type} (d : Decoder α) : Decoder (List α) := fun j =>
  match j with
  | .arr items => arrayAux d 0 items
  | _ => .error ⟨[], "expected an array"⟩

/-- Combinator `decode.oneOf ds`: first success wins; an aggregate error if all fail. -/
def oneOf {α : Type} : List (Decoder α) → Decoder α
  | [] => fun _ => .error ⟨[], "none matched"⟩
  | d :: rest => fun j =>
    match d j with
    | .ok a => .ok a
    | .error _ => oneOf rest j

/-- Combinator `decode.maybe d`: never fails; absent on `null` or when the wrapped
decoder fails (`Maybe` is modelled by `Option`). -/
def maybe {α : Type} (d : Decoder α) : Decoder (Option α) := fun j =>
  match j with
  | .null => .ok none
  | _ =>
    match d j with
    | .ok a => .ok (some a)
    | .error _ => .ok none

/-- Combinator `decode.succeed x`. -/
def succeed {α : Type} (a : α) : Decoder α := fun _ => .ok a

/-- Combinator `decode.map f d`. -/
def map {α β : Type} (f : α → β) (d : Decoder α) : Decoder β := fun j =>
  match d j with
  | .ok a => .ok (f a)
  | .error e => .error e

end decode

/-! ## The event decoder (`src/data/event.js` lines 35–193) -/

/-- The closed eleven-value category enumeration (source lines 35–47). -/
def eventCategoryNames : List String :=
  ["Cabaret and Variety", "Community", "Talks and Debates",
   "Film and Screenings", "Plays and Theatre", "Social and Networking",
   "Nightlife", "Exhibition and Tours", "Sports and Activities",
   "Health", "Music"]

/-- Source `decodeEventCategoryName` (lines 49–51). -/
def decodeEventCategoryName : Decoder String :=
  decode.oneOf (eventCategoryNames.map decode.value)

/-- Source `maybeField` (lines 87–92). -/
def maybeField {α : Type} (locale fieldName : String) (d : Decoder α) :
    Decoder (Option α) :=
  decode.field fieldName (decode.maybe (decode.field locale d))

/-- Source `maybeFieldWithDefault` (lines 94–103). -/
def maybeFieldWithDefault {α : Type} (locale fieldName : String)
    (d : Decoder α) (defaultValue : α) : Decoder α :=
  decode.map (fun o => o.getD defaultValue) (maybeField locale fieldName d)

/-- Reference decoder `decodeFieldRef` of `src/data/field-ref`.  Modelled from the spec:
`src/data/field-ref` is not among the sources; asset references are
"decoded structurally but not interpreted" (spec §6), so the reference is
kept as the raw value. -/
def decodeFieldRef : Decoder Json := fun j => .ok j

/-- The `fields` part of the decoder's output (timestamps as the raw decoded
strings, references as raw values). -/
structure DecodedFields where
  name : String
  eventCategories : List String
  audience : List String
  startTime : String
  endTime : String
  location : Location
  addressLine1 : Option String
  addressLine2 : Option String
  city : Option String
  postcode : Option String
  locationName : String
  eventPriceLow : Int
  eventPriceHigh : Int
  accessibilityOptions : List String
  eventDescription : String
  accessibilityDetails : Option String
  email : Option String
  phone : Option String
  ticketingUrl : Option String
  venueDetails : List String
  individualEventPicture : Json
  eventsListPicture : Json
  performances : List Json
  recurrenceDates : List String

/-- The decoder's output record. -/
structure DecodedEvent where
  contentType : String
  id : String
  locale : String
  revision : Int
  fields : DecodedFields

/-- The locale-keyed `fields` shape of `decodeEvent` (source lines 114–192).
`decode.shape` decodes its named decoders in declaration order and fails on
the first failing key; the `Except` bind chain reproduces exactly that. -/
def decodeEventFields (locale : String) : Decoder DecodedFields := fun fj => do
  let name ← decode.atPath ["name", locale] decode.string fj
  let eventCategories ←
    decode.atPath ["eventCategories", locale]
      (decode.array decodeEventCategoryName) fj
  let audience ←
    maybeFieldWithDefault locale "audience" (decode.array decode.string) [] fj
  let startTime ← decode.atPath ["startTime", locale] decode.string fj
  let endTime ← decode.atPath ["endTime", locale] decode.string fj
  let location ←
    decode.atPath ["location", locale]
      (fun lj => do
        let lat ← decode.field "lat" decode.number lj
        let lon ← decode.field "lon" decode.number lj
        pure (⟨lat, lon⟩ : Location)) fj
  let addressLine1 ← maybeField locale "addressLine1" decode.string fj
  let addressLine2 ← maybeField locale "addressLine2" decode.string fj
  let city ← maybeField locale "city" decode.string fj
  let postcode ← maybeField locale "postcode" decode.string fj
  let locationName ← decode.atPath ["locationName", locale] decode.string fj
  let eventPriceLow ← decode.atPath ["eventPriceLow", locale] decode.number fj
  let eventPriceHigh ←
    decode.atPath ["eventPriceHigh", locale] decode.number fj
  let accessibilityOptions ←
    maybeFieldWithDefault locale "accessibilityOptions"
      (decode.array decode.string) [] fj
  let eventDescription ←
    decode.atPath ["eventDescription", locale] decode.string fj
  let accessibilityDetails ←
    maybeField locale "accessibilityDetails" decode.string fj
  let email ← maybeField locale "email" decode.string fj
  let phone ← maybeField locale "phone" decode.string fj
  let ticketingUrl ← maybeField locale "ticketingUrl" decode.string fj
  let venueDetails ←
    maybeFieldWithDefault locale "venueDetails"
      (decode.array decode.string) [] fj
  let individualEventPicture ←
    decode.atPath ["individualEventPicture", locale] decodeFieldRef fj
  let eventsListPicture ←
    decode.atPath ["eventsListPicture", locale] decodeFieldRef fj
  let performances ←
    maybeFieldWithDefault locale "performances"
      (decode.array decodeFieldRef) [] fj
  let recurrenceDates ←
    maybeFieldWithDefault locale "recurrenceDates"
      (decode.array decode.string) [] fj
  pure
    { name, eventCategories, audience, startTime, endTime, location,
      addressLine1, addressLine2, city, postcode, locationName,
      eventPriceLow, eventPriceHigh, accessibilityOptions, eventDescription,
      accessibilityDetails, email, phone, ticketingUrl, venueDetails,
      individualEventPicture, eventsListPicture, performances,
      recurrenceDates }

/-- Source `decodeEvent` (lines 105–193): validate the content type, extract
`sys.id` and `sys.revision`, inject the locale and decode the fields, all or
nothing. -/
def decodeEvent (locale : String) : Decoder DecodedEvent := fun j => do
  let contentType ←
    decode.atPath ["sys", "contentType", "sys", "id"]
      (decode.value "event") j
  let id ← decode.atPath ["sys", "id"] decode.string j
  let localeValue ← decode.succeed (α := String) locale j
  let revision ← decode.atPath ["sys", "revision"] decode.number j
  let fields ← decode.field "fields" (decodeEventFields locale) j
  pure { contentType, id, locale := localeValue, revision, fields }

/-! ## Composite event filters

Modelled from the spec: the implementation of `selectDateFilter`,
`selectTimeFilter`, `buildEventFilter` (`src/selectors/event-filters`) and
of the basic builders `buildDateRangeFilter`, `buildTimeFilter`
(`src/selectors/basic-event-filters`) is not among the sources — only their
test suite is.  Definitions follow spec §4.4–4.5 and that test suite: the
time-of-day buckets are the three values the tests enumerate as "all
possible values"; a date string of a `DateRange` is identified with its
civil day number; bucket boundaries are fixed clock-time constants. -/

/-- A time-of-day bucket (the tests enumerate morning/afternoon/evening as
the full set of possible values). -/
inductive Time where
  | morning : Time
  | afternoon : Time
  | evening : Time
deriving DecidableEq, Fintype, Repr

/-- An inclusive date range; a single day collapses `startDate = endDate`.
Each bound is the civil day number of its date string. -/
structure DateRange where
  startDate : Int
  endDate : Int
deriving DecidableEq, Repr

/-- One branch of the filter state (category tags are out of scope of the
claims on `buildEventFilter`, which the tests exercise on date and time). -/
structure FilterCollection where
  date : Option DateRange
  time : Finset Time
deriving DecidableEq

/-- The dual selected/staged filter state. -/
structure EventFiltersState where
  selectedFilters : FilterCollection
  stagedFilters : FilterCollection

/-- The slice of the application state the selectors read. -/
structure State where
  eventFilters : EventFiltersState

/-- Selector `selectDateFilter(state, staged?)`: project the date filter of the
chosen branch. -/
def selectDateFilter (state : State) (staged : Bool) : Option DateRange :=
  if staged then state.eventFilters.stagedFilters.date
  else state.eventFilters.selectedFilters.date

/-- Selector `selectTimeFilter(state, staged?)`: project the time-bucket set of the
chosen branch. -/
def selectTimeFilter (state : State) (staged : Bool) : Finset Time :=
  if staged then state.eventFilters.stagedFilters.time
  else state.eventFilters.selectedFilters.time

/-- Civil day number of an event's start instant. -/
def eventStartDay (e : Event) : Int := Int.fdiv e.fields.startTime 1440

/-- Clock hour of an event's start instant. -/
def eventStartHour (e : Event) : Int := Int.fdiv (Int.emod e.fields.startTime 1440) 60

/-- Basic filter `buildDateRangeFilter(range)`: true iff the event's start date falls
within the inclusive range. -/
def buildDateRangeFilter (range : DateRange) : Event → Bool := fun e =>
  decide (range.startDate ≤ eventStartDay e ∧ eventStartDay e ≤ range.endDate)

/-- Basic filter `buildTimeFilter(bucket)`: true iff the event's start time falls within
the bucket's fixed clock-time window. -/
def buildTimeFilter (bucket : Time) : Event → Bool := fun e =>
  match bucket with
  | .morning => decide (eventStartHour e < 12)
  | .afternoon => decide (12 ≤ eventStartHour e ∧ eventStartHour e < 18)
  | .evening => decide (18 ≤ eventStartHour e)

/-- Composite filter `buildEventFilter(state, staged?)`: the conjunction of a date component
(always-true when no date filter is chosen) and a time component
(always-true when the chosen bucket set is empty or full, otherwise an OR
across the chosen buckets). -/
def buildEventFilter (state : State) (staged : Bool) : Event → Bool := fun e =>
  let date := selectDateFilter state staged
  let time := selectTimeFilter state staged
  let dateComponent : Event → Bool :=
    match date with
    | none => fun _ => true
    | some range => buildDateRangeFilter range
  let timeComponent : Event → Bool :=
    if time = ∅ ∨ time = Finset.univ then fun _ => true
    else fun ev => decide (∃ b ∈ time, buildTimeFilter b ev = true)
  dateComponent e && timeComponent e

/-! ## Tag toggling (`src/screens/FilterModal/component.js` lines 60–69) -/

/-- Source `toggleTagFilter`: copy the selected set; remove the section value if it
was a member, else add it (the JS copies the set with `new Set([...s])` and
then `delete`s or `add`s, so the input set is never mutated — inherent in
the `Finset` model). -/
def toggleTagFilter (selectedValues : Finset String)
    (sectionValue : String) : Finset String :=
  if sectionValue ∈ selectedValues then selectedValues.erase sectionValue
  else insert sectionValue selectedValues

/-! ## Concrete instances (used to exercise the theorems) -/

/-- A sample decoded event: 2018-01-09, 11:00–13:00, one recurrence. -/
def evA : Event :=
  { contentType := "event"
    id := "event1"
    locale := "en-GB"
    revision := 1
    fields :=
      { name := "Pride in the Park"
        eventCategories := ["Music"]
        audience := []
        startTime := setDate 0 2018 1 9 + 11 * 60
        endTime := setDate 0 2018 1 9 + 13 * 60
        location := ⟨51, 0⟩
        addressLine1 := none
        addressLine2 := none
        city := none
        postcode := none
        locationName := "Vauxhall Pleasure Gardens"
        eventPriceLow := 0
        eventPriceHigh := 30
        accessibilityOptions := []
        eventDescription := "A sample event"
        accessibilityDetails := none
        email := none
        phone := none
        ticketingUrl := none
        venueDetails := []
        individualEventPicture := ⟨"asset1"⟩
        eventsListPicture := ⟨"asset1"⟩
        performances := []
        recurrenceDates := ["13/1/18"] } }

/-- The event `evA` without recurrences. -/
def evB : Event :=
  { evA with fields := { evA.fields with recurrenceDates := [] } }

/-- The event `evA` with recurrence dates listed out of chronological order. -/
def evC : Event :=
  { evA with
    fields := { evA.fields with recurrenceDates := ["15/1/18", "13/1/18"] } }

/-- The single derived occurrence of `evA`. -/
def occA : Event :=
  generateRecurringEvent evA
    (recurrenceDateToStartTime evA.fields.startTime "13/1/18")

/-- A raw content record whose `eventCategories` holds a value outside the
category enumeration. -/
def rawBad : Json :=
  .obj [("fields",
    .obj [("eventCategories", .obj [("en-GB", .arr [.str "Bogus"])])])]

/-- A raw content record that decodes fully (optional scalar fields null). -/
def rawGood : Json :=
  .obj
    [("sys", .obj
        [("contentType", .obj [("sys", .obj [("id", .str "event")])]),
         ("id", .str "event1"),
         ("revision", .num 1)]),
     ("fields", .obj
        [("name", .obj [("en-GB", .str "Pride in the Park")]),
         ("eventCategories",
           .obj [("en-GB", .arr [.str "Music", .str "Community"])]),
         ("audience", .null),
         ("startTime", .obj [("en-GB", .str "2018-01-09T11:00+00:00")]),
         ("endTime", .obj [("en-GB", .str "2018-01-09T13:00+00:00")]),
         ("location",
           .obj [("en-GB", .obj [("lat", .num 51), ("lon", .num 0)])]),
         ("addressLine1", .null),
         ("addressLine2", .null),
         ("city", .null),
         ("postcode", .null),
         ("locationName", .obj [("en-GB", .str "Vauxhall Pleasure Gardens")]),
         ("eventPriceLow", .obj [("en-GB", .num 0)]),
         ("eventPriceHigh", .obj [("en-GB", .num 30)]),
         ("accessibilityOptions", .null),
         ("eventDescription", .obj [("en-GB", .str "A sample event")]),
         ("accessibilityDetails", .null),
         ("email", .null),
         ("phone", .null),
         ("ticketingUrl", .null),
         ("venueDetails", .null),
         ("individualEventPicture", .obj [("en-GB", .str "asset1")]),
         ("eventsListPicture", .obj [("en-GB", .str "asset1")]),
         ("performances", .null),
         ("recurrenceDates", .obj [("en-GB", .arr [.str "13/1/18"])])])]

/-- The record `rawGood` decodes to. -/
def eGood : DecodedEvent :=
  { contentType := "event"
    id := "event1"
    locale := "en-GB"
    revision := 1
    fields :=
      { name := "Pride in the Park"
        eventCategories := ["Music", "Community"]
        audience := []
        startTime := "2018-01-09T11:00+00:00"
        endTime := "2018-01-09T13:00+00:00"
        location := ⟨51, 0⟩
        addressLine1 := none
        addressLine2 := none
        city := none
        postcode := none
        locationName := "Vauxhall Pleasure Gardens"
        eventPriceLow := 0
        eventPriceHigh := 30
        accessibilityOptions := []
        eventDescription := "A sample event"
        accessibilityDetails := none
        email := none
        phone := none
        ticketingUrl := none
        venueDetails := []
        individualEventPicture := .str "asset1"
        eventsListPicture := .str "asset1"
        performances := []
        recurrenceDates := ["13/1/18"] } }

/-- A filter state whose selected branch has no date filter and the full
time-bucket set, and whose staged branch has no date filter and the empty
time-bucket set. -/
def stateW : State :=
  ⟨⟨⟨none, Finset.univ⟩, ⟨none, ∅⟩⟩⟩

/-! ## Properties of the deduplication (`R.uniq`) -/

theorem memb_eq_true_iff {α : Type} [DecidableEq α] (x : α) (l : List α) :
    memb x l = true ↔ x ∈ l := by
  induction l with
  | nil => simp [memb]
  | cons y ys ih =>
    by_cases h : x = y
    · simp [memb, h]
    · simp [memb, h, ih]

theorem uniqAux_congr {α : Type} [DecidableEq α] (l : List α) :
    ∀ s₁ s₂ : List α, (∀ a, a ∈ s₁ ↔ a ∈ s₂) → uniqAux s₁ l = uniqAux s₂ l := by
  induction l with
  | nil => intro s₁ s₂ _; rfl
  | cons x xs ih =>
    intro s₁ s₂ hs
    have hmb : memb x s₁ = memb x s₂ := by
      rw [Bool.eq_iff_iff, memb_eq_true_iff, memb_eq_true_iff]
      exact hs x
    by_cases h : memb x s₂ = true
    · simp [uniqAux, hmb, h, ih s₁ s₂ hs]
    · simp only [uniqAux, hmb, h, if_neg, Bool.not_eq_true]
      exact congrArg (List.cons x)
        (ih (x :: s₁) (x :: s₂) (by intro a; simp [hs a]))

theorem mem_uniqAux {α : Type} [DecidableEq α] (l : List α) :
    ∀ (seen : List α) (x : α), x ∈ uniqAux seen l ↔ x ∈ l ∧ x ∉ seen := by
  induction l with
  | nil => intro seen x; simp [uniqAux]
  | cons y ys ih =>
    intro seen x
    by_cases h : memb y seen = true
    · have hy : y ∈ seen := (memb_eq_true_iff y seen).mp h
      rw [show uniqAux seen (y :: ys) = uniqAux seen ys from by
        simp [uniqAux, h]]
      rw [ih]
      constructor
      · rintro ⟨hx, hns⟩
        exact ⟨List.mem_cons_of_mem _ hx, hns⟩
      · rintro ⟨hx, hns⟩
        rcases List.mem_cons.mp hx with rfl | hx2
        · exact absurd hy hns
        · exact ⟨hx2, hns⟩
    · have hy : y ∉ seen := fun hm => h ((memb_eq_true_iff y seen).mpr hm)
      rw [show uniqAux seen (y :: ys) = y :: uniqAux (y :: seen) ys from by
        simp [uniqAux, h]]
      constructor
      · intro hx
        rcases List.mem_cons.mp hx with rfl | hx2
        · exact ⟨List.mem_cons_self _ _, hy⟩
        · obtain ⟨h1, h2⟩ := (ih (y :: seen) x).mp hx2
          exact ⟨List.mem_cons_of_mem _ h1,
            fun hc => h2 (List.mem_cons_of_mem _ hc)⟩
      · rintro ⟨hx, hns⟩
        rcases List.mem_cons.mp hx with rfl | hx2
        · exact List.mem_cons_self _ _
        · by_cases hxy : x = y
          · subst hxy; exact List.mem_cons_self _ _
          · refine List.mem_cons_of_mem _ ((ih (y :: seen) x).mpr ⟨hx2, ?_⟩)
            intro hc
            rcases List.mem_cons.mp hc with h3 | h3
            · exact hxy h3
            · exact hns h3

theorem nodup_uniqAux {α : Type} [DecidableEq α] (l : List α) :
    ∀ seen : List α, (uniqAux seen l).Nodup := by
  induction l with
  | nil => intro seen; simp [uniqAux]
  | cons y ys ih =>
    intro seen
    by_cases h : memb y seen = true
    · simpa [uniqAux, if_pos h] using ih seen
    · simp only [uniqAux, if_neg h, List.nodup_cons]
      refine ⟨fun hc => ?_, ih (y :: seen)⟩
      exact ((mem_uniqAux ys (y :: seen) y).mp hc).2 (List.mem_cons_self y seen)

theorem uniqAux_cons_eq_filter {α : Type} [DecidableEq α] (l : List α) :
    ∀ (a : α) (seen : List α),
      uniqAux (a :: seen) l = uniqAux seen (l.filter fun x => decide (x ≠ a)) := by
  induction l with
  | nil => intro a seen; rfl
  | cons x xs ih =>
    intro a seen
    by_cases hxa : x = a
    · subst hxa
      have hm : memb x (x :: seen) = true := by simp [memb]
      have hf : (x :: xs).filter (fun y => decide (y ≠ x))
          = xs.filter (fun y => decide (y ≠ x)) := by
        simp [List.filter_cons]
      rw [hf, show uniqAux (x :: seen) (x :: xs) = uniqAux (x :: seen) xs from
        by simp [uniqAux, hm]]
      exact ih x seen
    · have hf : (x :: xs).filter (fun y => decide (y ≠ a))
          = x :: xs.filter (fun y => decide (y ≠ a)) := by
        simp [List.filter_cons, hxa]
      rw [hf]
      have hmb : memb x (a :: seen) = memb x seen := by simp [memb, hxa]
      by_cases h : memb x seen = true
      · rw [show uniqAux (a :: seen) (x :: xs) = uniqAux (a :: seen) xs from
          by simp [uniqAux, hmb, h]]
        rw [show uniqAux seen (x :: xs.filter (fun y => decide (y ≠ a)))
            = uniqAux seen (xs.filter (fun y => decide (y ≠ a))) from
          by simp [uniqAux, h]]
        exact ih a seen
      · have h' : memb x seen = false := by
          cases hb : memb x seen
          · rfl
          · exact absurd hb h
        rw [show uniqAux (a :: seen) (x :: xs)
            = x :: uniqAux (x :: a :: seen) xs from
          by simp [uniqAux, hmb, h']]
        rw [show uniqAux seen (x :: xs.filter (fun y => decide (y ≠ a)))
            = x :: uniqAux (x :: seen) (xs.filter (fun y => decide (y ≠ a)))
          from by simp [uniqAux, h']]
        congr 1
        rw [uniqAux_congr xs (x :: a :: seen) (a :: x :: seen)
          (by intro b; simp [List.mem_cons]; tauto)]
        exact ih a (x :: seen)

theorem uniq_cons_eq {α : Type} [DecidableEq α] (s : α) (l : List α) :
    uniq (s :: l) = s :: uniq (l.filter fun x => decide (x ≠ s)) := by
  show uniqAux [] (s :: l) = _
  rw [show uniqAux [] (s :: l) = s :: uniqAux [s] l from rfl,
    uniqAux_cons_eq_filter l s []]
  rfl

theorem mem_uniq {α : Type} [DecidableEq α] (l : List α) (x : α) :
    x ∈ uniq l ↔ x ∈ l := by
  simp [uniq, mem_uniqAux]

theorem nodup_uniq {α : Type} [DecidableEq α] (l : List α) :
    (uniq l).Nodup := nodup_uniqAux l []

/-! ## Structure of the expanded recurrence list -/

/-- The candidate start instants a recurrence list resolves to. -/
def resolvedStartTimes (e : Event) : List Timestamp :=
  e.fields.recurrenceDates.map (recurrenceDateToStartTime e.fields.startTime)

theorem expandRecurringEvents_structure (e : Event) :
    expandRecurringEvents e =
      e :: (uniq ((resolvedStartTimes e).filter
          fun t => decide (t ≠ e.fields.startTime))).map
        (generateRecurringEvent e) := by
  show e :: ((uniq (e.fields.startTime :: resolvedStartTimes e)).drop 1).map
      (generateRecurringEvent e) = _
  rw [uniq_cons_eq, List.drop_one, List.tail_cons]

theorem mem_tail_expand {e occ : Event}
    (h : occ ∈ (expandRecurringEvents e).tail) :
    ∃ t, t ∈ uniq ((resolvedStartTimes e).filter
        fun t => decide (t ≠ e.fields.startTime))
      ∧ occ = generateRecurringEvent e t := by
  rw [expandRecurringEvents_structure, List.tail_cons] at h
  obtain ⟨t, ht, rfl⟩ := List.mem_map.mp h
  exact ⟨t, ht, rfl⟩

/-! ## Claims on recurrence expansion -/

/-- C1.  For every Event `e` whose `fields.recurrenceDates` is the empty
list, `expandRecurringEvents e` returns exactly the one-element list
`[e]`. -/
theorem expandRecurringEvents_no_recurrences (e : Event)
    (h : e.fields.recurrenceDates = []) :
    expandRecurringEvents e = [e] := by
  rw [expandRecurringEvents_structure, resolvedStartTimes, h]
  rfl

/-- Witness for C1: the sample event without recurrences expands to itself
alone. -/
theorem expandRecurringEvents_no_recurrences_witness :
    expandRecurringEvents evB = [evB] :=
  expandRecurringEvents_no_recurrences evB rfl

/-- C2.  A recurrence date resolving to the same start time as the original
(or as another entry) produces no extra occurrence: the length of
`expandRecurringEvents e` is at most one plus the number of distinct
resolved recurrence start times that differ from the original's start
time. -/
theorem expandRecurringEvents_length_le_distinct (e : Event) :
    (expandRecurringEvents e).length ≤
      1 + ((resolvedStartTimes e).filter
          fun t => decide (t ≠ e.fields.startTime)).toFinset.card := by
  rw [expandRecurringEvents_structure]
  simp only [List.length_cons, List.length_map]
  rw [Nat.add_comm 1]
  apply Nat.succ_le_succ
  set fl := (resolvedStartTimes e).filter
    fun t => decide (t ≠ e.fields.startTime) with hfl
  calc (uniq fl).length = (uniq fl).toFinset.card :=
        (List.toFinset_card_of_nodup (nodup_uniq fl)).symm
    _ ≤ fl.toFinset.card := by
        apply Finset.card_le_card
        intro x hx
        rw [List.mem_toFinset] at hx ⊢
        exact (mem_uniq fl x).mp hx

/-- C3, counterexample.  The derived occurrences are emitted in the order
the recurrence dates are listed, not in chronological order: an event whose
recurrence list is `["15/1/18", "13/1/18"]` expands with the January 15
occurrence before the January 13 one, although the latter resolves
earlier. -/
theorem expandRecurringEvents_not_chronological :
    ((expandRecurringEvents evC).map fun ev => ev.fields.startTime)
      = [evC.fields.startTime,
         recurrenceDateToStartTime evC.fields.startTime "15/1/18",
         recurrenceDateToStartTime evC.fields.startTime "13/1/18"]
    ∧ recurrenceDateToStartTime evC.fields.startTime "13/1/18"
        < recurrenceDateToStartTime evC.fields.startTime "15/1/18" :=
  ⟨rfl, by decide⟩

/-- C3, amended.  `expandRecurringEvents e` is a non-empty sequence with the
original event first, followed by exactly one derived occurrence per
de-duplicated resolved recurrence start time differing from the original's,
in order of first appearance in the `recurrenceDates` list (duplicates and
entries resolving to the original's own start time are dropped). -/
theorem expandRecurringEvents_first_occurrence_order (e : Event) :
    expandRecurringEvents e =
      e :: (uniq ((resolvedStartTimes e).filter
          fun t => decide (t ≠ e.fields.startTime))).map
        (generateRecurringEvent e)
    ∧ (uniq ((resolvedStartTimes e).filter
        fun t => decide (t ≠ e.fields.startTime))).Nodup
    ∧ ∀ t ∈ uniq ((resolvedStartTimes e).filter
        fun t => decide (t ≠ e.fields.startTime)),
        t ∈ resolvedStartTimes e ∧ t ≠ e.fields.startTime := by
  refine ⟨expandRecurringEvents_structure e, nodup_uniq _, ?_⟩
  intro t ht
  rw [mem_uniq, List.mem_filter] at ht
  exact ⟨ht.1, by simpa using ht.2⟩

/-- C4.  Every derived occurrence preserves the original's duration: the
offset between the occurrence's start and the original start is applied to
the original end time, so end minus start is unchanged. -/
theorem recurrences_preserve_duration (e occ : Event)
    (h : occ ∈ (expandRecurringEvents e).tail) :
    diffDate occ.fields.endTime occ.fields.startTime
      = diffDate e.fields.endTime e.fields.startTime := by
  obtain ⟨t, _, rfl⟩ := mem_tail_expand h
  simp only [generateRecurringEvent, diffDate, addToDate]
  ring

/-- Witness for C4: the derived occurrence of the sample event keeps its
two-hour duration. -/
theorem recurrences_preserve_duration_witness :
    diffDate occA.fields.endTime occA.fields.startTime
      = diffDate evA.fields.endTime evA.fields.startTime :=
  recurrences_preserve_duration evA occA (by
    rw [show (expandRecurringEvents evA).tail = [occA] from rfl]
    exact List.mem_cons_self _ _)

/-- C5.  Every derived occurrence's id is the original id followed by
"-recurrence-" and the occurrence's own start date in European display
format, and its recurrence list is the original's start date in display
format prepended to the original's recurrence list. -/
theorem recurrence_id_and_provenance (e occ : Event)
    (h : occ ∈ (expandRecurringEvents e).tail) :
    occ.id = e.id ++ "-recurrence-" ++ formatEuropeanDate occ.fields.startTime
    ∧ occ.fields.recurrenceDates
        = formatEuropeanDate e.fields.startTime :: e.fields.recurrenceDates := by
  obtain ⟨t, _, rfl⟩ := mem_tail_expand h
  exact ⟨rfl, rfl⟩

/-- Witness for C5 at the sample event's derived occurrence. -/
theorem recurrence_id_and_provenance_witness :
    occA.id = evA.id ++ "-recurrence-" ++ formatEuropeanDate occA.fields.startTime
    ∧ occA.fields.recurrenceDates
        = formatEuropeanDate evA.fields.startTime :: evA.fields.recurrenceDates :=
  recurrence_id_and_provenance evA occA (by
    rw [show (expandRecurringEvents evA).tail = [occA] from rfl]
    exact List.mem_cons_self _ _)

/-- C6.  Recurrence expansion never mutates the original: the original
event is returned unchanged as the first element, and every derived
occurrence agrees with the original on every part other than
`fields.startTime`, `fields.endTime`, `fields.recurrenceDates` and `id`. -/
theorem recurrence_frame (e occ : Event)
    (h : occ ∈ (expandRecurringEvents e).tail) :
    (expandRecurringEvents e).head? = some e
    ∧ occ.contentType = e.contentType
    ∧ occ.locale = e.locale
    ∧ occ.revision = e.revision
    ∧ occ.fields.name = e.fields.name
    ∧ occ.fields.eventCategories = e.fields.eventCategories
    ∧ occ.fields.audience = e.fields.audience
    ∧ occ.fields.location = e.fields.location
    ∧ occ.fields.addressLine1 = e.fields.addressLine1
    ∧ occ.fields.addressLine2 = e.fields.addressLine2
    ∧ occ.fields.city = e.fields.city
    ∧ occ.fields.postcode = e.fields.postcode
    ∧ occ.fields.locationName = e.fields.locationName
    ∧ occ.fields.eventPriceLow = e.fields.eventPriceLow
    ∧ occ.fields.eventPriceHigh = e.fields.eventPriceHigh
    ∧ occ.fields.accessibilityOptions = e.fields.accessibilityOptions
    ∧ occ.fields.eventDescription = e.fields.eventDescription
    ∧ occ.fields.accessibilityDetails = e.fields.accessibilityDetails
    ∧ occ.fields.email = e.fields.email
    ∧ occ.fields.phone = e.fields.phone
    ∧ occ.fields.ticketingUrl = e.fields.ticketingUrl
    ∧ occ.fields.venueDetails = e.fields.venueDetails
    ∧ occ.fields.individualEventPicture = e.fields.individualEventPicture
    ∧ occ.fields.eventsListPicture = e.fields.eventsListPicture
    ∧ occ.fields.performances = e.fields.performances := by
  obtain ⟨t, _, rfl⟩ := mem_tail_expand h
  exact ⟨rfl, rfl, rfl, rfl, rfl, rfl, rfl, rfl, rfl, rfl, rfl, rfl, rfl,
    rfl, rfl, rfl, rfl, rfl, rfl, rfl, rfl, rfl, rfl, rfl, rfl⟩

/-- Witness for C6 at the sample event's derived occurrence (projected to
the head and the revision component). -/
theorem recurrence_frame_witness :
    (expandRecurringEvents evA).head? = some evA
    ∧ occA.revision = evA.revision :=
  ⟨(recurrence_frame evA occA (by
      rw [show (expandRecurringEvents evA).tail = [occA] from rfl]
      exact List.mem_cons_self _ _)).1,
   (recurrence_frame evA occA (by
      rw [show (expandRecurringEvents evA).tail = [occA] from rfl]
      exact List.mem_cons_self _ _)).2.2.2.1⟩

/-! ## Inversion lemmas for the decoder combinators -/

theorem bind_ok {α β : Type} {x : Except DecodeError α}
    {f : α → Except DecodeError β} {b : β}
    (h : x >>= f = .ok b) : ∃ a, x = .ok a ∧ f a = .ok b := by
  cases x with
  | error e => simp [Bind.bind, Except.bind] at h
  | ok a => exact ⟨a, rfl, by simpa [Bind.bind, Except.bind] using h⟩

theorem pure_ok {α : Type} {a b : α}
    (h : (pure a : Except DecodeError α) = .ok b) : a = b := by
  simpa [pure, Except.pure] using h

theorem prependPath_ok {α : Type} {seg : String}
    {r : Except DecodeError α} {a : α}
    (h : decode.prependPath seg r = .ok a) : r = .ok a := by
  cases r with
  | error e => simp [decode.prependPath] at h
  | ok b => simpa [decode.prependPath] using h

theorem field_ok {α : Type} {name : String} {d : Decoder α} {j : Json} {a : α}
    (h : decode.field name d j = .ok a) :
    ∃ v, getPath j [name] = some v ∧ d v = .ok a := by
  cases j with
  | obj entries =>
    cases hl : lookupEntry name entries with
    | none => simp [decode.field, hl] at h
    | some v =>
      rw [decode.field] at h
      simp only [hl] at h
      exact ⟨v, by simp [getPath, hl], prependPath_ok h⟩
  | null => simp [decode.field] at h
  | str s => simp [decode.field] at h
  | num n => simp [decode.field] at h
  | bool b => simp [decode.field] at h
  | arr xs => simp [decode.field] at h

theorem getPath_cons_of {j v : Json} {k : String} {ks : List String}
    (h : getPath j [k] = some v) : getPath j (k :: ks) = getPath v ks := by
  cases j with
  | obj entries =>
    cases hl : lookupEntry k entries with
    | none => simp [getPath, hl] at h
    | some w =>
      simp only [getPath, hl] at h ⊢
      rw [Option.some.injEq] at h
      rw [h]
  | null => simp [getPath] at h
  | str s => simp [getPath] at h
  | num n => simp [getPath] at h
  | bool b => simp [getPath] at h
  | arr xs => simp [getPath] at h

theorem atPath_ok {α : Type} {d : Decoder α} {a : α} :
    ∀ {path : List String} {j : Json}, decode.atPath path d j = .ok a →
      ∃ v, getPath j path = some v ∧ d v = .ok a := by
  intro path
  induction path with
  | nil => intro j h; exact ⟨j, by cases j <;> rfl, h⟩
  | cons k ks ih =>
    intro j h
    obtain ⟨v, hv, hrest⟩ := field_ok (d := decode.atPath ks d) h
    obtain ⟨w, hw, hd⟩ := ih hrest
    exact ⟨w, by rw [getPath_cons_of hv]; exact hw, hd⟩

theorem string_ok {j : Json} {s : String}
    (h : decode.string j = .ok s) : j = .str s := by
  cases j <;> simp [decode.string] at h
  rw [h]

theorem number_ok {j : Json} {n : Int}
    (h : decode.number j = .ok n) : j = .num n := by
  cases j <;> simp [decode.number] at h
  rw [h]

theorem value_ok {lit : String} {j : Json} {s : String}
    (h : decode.value lit j = .ok s) : j = .str lit ∧ s = lit := by
  cases j with
  | str s' =>
    simp only [decode.value] at h
    split at h
    · next he =>
      rw [Except.ok.injEq] at h
      subst h
      exact ⟨by rw [he], he⟩
    · exact absurd h (by simp)
  | null => simp [decode.value] at h
  | num n => simp [decode.value] at h
  | bool b => simp [decode.value] at h
  | arr xs => simp [decode.value] at h
  | obj es => simp [decode.value] at h

theorem arrayAux_ok {α : Type} {d : Decoder α} :
    ∀ {xs : List Json} {i : Nat} {ys : List α},
      decode.arrayAux d i xs = .ok ys → ∀ x ∈ xs, ∃ y, d x = .ok y := by
  intro xs
  induction xs with
  | nil => intro i ys _ x hx; exact absurd hx (List.not_mem_nil x)
  | cons z zs ih =>
    intro i ys h x hx
    rw [decode.arrayAux] at h
    cases hd : d z with
    | error e => rw [hd] at h; simp at h
    | ok a =>
      rw [hd] at h
      cases hrest : decode.arrayAux d (i + 1) zs with
      | error e => rw [hrest] at h; simp at h
      | ok rest =>
        rcases List.mem_cons.mp hx with rfl | hx2
        · exact ⟨a, hd⟩
        · exact ih hrest x hx2

theorem array_ok {α : Type} {d : Decoder α} {j : Json} {ys : List α}
    (h : decode.array d j = .ok ys) :
    ∃ items, j = .arr items ∧ ∀ x ∈ items, ∃ y, d x = .ok y := by
  cases j <;> simp [decode.array] at h ⊢
  exact arrayAux_ok h

theorem oneOf_value_ok {a : String} :
    ∀ {names : List String} {j : Json},
      decode.oneOf (names.map decode.value) j = .ok a →
      a ∈ names ∧ j = .str a := by
  intro names
  induction names with
  | nil => intro j h; simp [decode.oneOf] at h
  | cons n ns ih =>
    intro j h
    rw [List.map_cons] at h
    simp only [decode.oneOf] at h
    cases hv : decode.value n j with
    | ok s =>
      simp only [hv] at h
      rw [Except.ok.injEq] at h
      obtain ⟨h1, h2⟩ := value_ok hv
      subst h
      subst h2
      exact ⟨List.mem_cons_self _ _, h1⟩
    | error e =>
      simp only [hv] at h
      obtain ⟨hm, hj⟩ := ih h
      exact ⟨List.mem_cons_of_mem _ hm, hj⟩

theorem getPath_append (p : List String) :
    ∀ (j : Json) (q : List String),
      getPath j (p ++ q) = (getPath j p).bind fun v => getPath v q := by
  induction p with
  | nil => intro j q; cases j <;> rfl
  | cons k ks ih =>
    intro j q
    cases j with
    | obj entries =>
      cases hl : lookupEntry k entries with
      | none => simp [getPath, hl]
      | some v => simp [getPath, hl, ih]
    | null => simp [getPath]
    | str s => simp [getPath]
    | num n => simp [getPath]
    | bool b => simp [getPath]
    | arr xs => simp [getPath]

/-! ## Claims on the event decoder -/

/-- C7.  A raw record whose `eventCategories` at the given locale contains a
string outside the closed eleven-value enumeration never decodes: the whole
decode fails with an error, the invalid value is not silently dropped. -/
theorem decodeEvent_invalid_category_fails (raw : Json) (locale : String)
    (cats : List Json) (s : String)
    (hpath : getPath raw ["fields", "eventCategories", locale]
      = some (.arr cats))
    (hmem : Json.str s ∈ cats) (hbad : s ∉ eventCategoryNames) :
    ∃ err, decodeEvent locale raw = .error err := by
  cases hres : decodeEvent locale raw with
  | error err => exact ⟨err, rfl⟩
  | ok e =>
    exfalso
    simp only [decodeEvent] at hres
    obtain ⟨ct, hct, hres⟩ := bind_ok hres
    obtain ⟨idv, hid, hres⟩ := bind_ok hres
    obtain ⟨locv, hlocv, hres⟩ := bind_ok hres
    obtain ⟨rev, hrev, hres⟩ := bind_ok hres
    obtain ⟨flds, hflds, hres⟩ := bind_ok hres
    obtain ⟨fj, hfj, hdec⟩ := field_ok hflds
    simp only [decodeEventFields] at hdec
    obtain ⟨nm, hnm, hdec⟩ := bind_ok hdec
    obtain ⟨catsDec, hcats, hdec⟩ := bind_ok hdec
    obtain ⟨v, hv, harr⟩ := atPath_ok hcats
    have hcomp : getPath raw ["fields", "eventCategories", locale]
        = some v := by
      rw [getPath_cons_of hfj]; exact hv
    rw [hpath, Option.some.injEq] at hcomp
    subst hcomp
    obtain ⟨items, hitems, hall⟩ := array_ok harr
    have hci : cats = items := by injection hitems
    subst hci
    obtain ⟨y, hy⟩ := hall _ hmem
    simp only [decodeEventCategoryName] at hy
    obtain ⟨hyn, hjs⟩ := oneOf_value_ok hy
    have hsy : s = y := by injection hjs
    subst hsy
    exact hbad hyn

/-- Witness for C7: a record whose category list holds "Bogus" fails to
decode. -/
theorem decodeEvent_invalid_category_fails_witness :
    ∃ err, decodeEvent "en-GB" rawBad = .error err :=
  decodeEvent_invalid_category_fails rawBad "en-GB" [.str "Bogus"] "Bogus"
    rfl (List.mem_singleton.mpr rfl) (by decide)

/-- C8.  Decoding is all-or-nothing: a successful `decodeEvent locale`
implies the raw record carried the content type "event" and every required
field, present and well-typed under the locale key, whose value the decoded
record reproduces — contrapositively, a wrong content type or a missing or
type-mismatched required field fails the whole decode (the decoder's
codomain is a sum of full success and path-qualified error, so no
partial-success result exists). -/
theorem decodeEvent_all_required (locale : String) (raw : Json)
    (e : DecodedEvent) (h : decodeEvent locale raw = .ok e) :
    getPath raw ["sys", "contentType", "sys", "id"] = some (.str "event")
    ∧ e.contentType = "event"
    ∧ e.locale = locale
    ∧ getPath raw ["sys", "id"] = some (.str e.id)
    ∧ getPath raw ["sys", "revision"] = some (.num e.revision)
    ∧ getPath raw ["fields", "name", locale] = some (.str e.fields.name)
    ∧ getPath raw ["fields", "startTime", locale]
        = some (.str e.fields.startTime)
    ∧ getPath raw ["fields", "endTime", locale]
        = some (.str e.fields.endTime)
    ∧ getPath raw ["fields", "locationName", locale]
        = some (.str e.fields.locationName)
    ∧ getPath raw ["fields", "eventDescription", locale]
        = some (.str e.fields.eventDescription)
    ∧ getPath raw ["fields", "eventPriceLow", locale]
        = some (.num e.fields.eventPriceLow)
    ∧ getPath raw ["fields", "eventPriceHigh", locale]
        = some (.num e.fields.eventPriceHigh)
    ∧ getPath raw ["fields", "location", locale, "lat"]
        = some (.num e.fields.location.lat)
    ∧ getPath raw ["fields", "location", locale, "lon"]
        = some (.num e.fields.location.lon)
    ∧ ∃ cats, getPath raw ["fields", "eventCategories", locale]
        = some (.arr cats)
        ∧ ∀ c ∈ cats, ∃ n ∈ eventCategoryNames, c = .str n := by
  simp only [decodeEvent] at h
  obtain ⟨ct, hct, h⟩ := bind_ok h
  obtain ⟨idv, hid, h⟩ := bind_ok h
  obtain ⟨locv, hlocv, h⟩ := bind_ok h
  obtain ⟨rev, hrev, h⟩ := bind_ok h
  obtain ⟨flds, hflds, h⟩ := bind_ok h
  have he := pure_ok h
  obtain ⟨fj, hfj, hdec⟩ := field_ok hflds
  simp only [decodeEventFields] at hdec
  obtain ⟨nm, hnm, hdec⟩ := bind_ok hdec
  obtain ⟨catsv, hcats, hdec⟩ := bind_ok hdec
  obtain ⟨aud, -, hdec⟩ := bind_ok hdec
  obtain ⟨stv, hst, hdec⟩ := bind_ok hdec
  obtain ⟨env, hend, hdec⟩ := bind_ok hdec
  obtain ⟨locat, hlocat, hdec⟩ := bind_ok hdec
  obtain ⟨a1, -, hdec⟩ := bind_ok hdec
  obtain ⟨a2, -, hdec⟩ := bind_ok hdec
  obtain ⟨cty, -, hdec⟩ := bind_ok hdec
  obtain ⟨pc, -, hdec⟩ := bind_ok hdec
  obtain ⟨lnm, hlnm, hdec⟩ := bind_ok hdec
  obtain ⟨plow, hplow, hdec⟩ := bind_ok hdec
  obtain ⟨phigh, hphigh, hdec⟩ := bind_ok hdec
  obtain ⟨acc, -, hdec⟩ := bind_ok hdec
  obtain ⟨desc, hdesc, hdec⟩ := bind_ok hdec
  obtain ⟨accd, -, hdec⟩ := bind_ok hdec
  obtain ⟨em, -, hdec⟩ := bind_ok hdec
  obtain ⟨ph, -, hdec⟩ := bind_ok hdec
  obtain ⟨tu, -, hdec⟩ := bind_ok hdec
  obtain ⟨vd, -, hdec⟩ := bind_ok hdec
  obtain ⟨iep, -, hdec⟩ := bind_ok hdec
  obtain ⟨elp, -, hdec⟩ := bind_ok hdec
  obtain ⟨perf, -, hdec⟩ := bind_ok hdec
  obtain ⟨rd, -, hdec⟩ := bind_ok hdec
  have hfldsrec := pure_ok hdec
  subst hfldsrec
  subst he
  obtain ⟨vct, hvct, hval⟩ := atPath_ok hct
  obtain ⟨hvctstr, hctlit⟩ := value_ok hval
  subst hctlit
  rw [hvctstr] at hvct
  obtain ⟨vid, hvid, hsid⟩ := atPath_ok hid
  rw [string_ok hsid] at hvid
  have hlv : locale = locv := by
    simp only [decode.succeed, Except.ok.injEq] at hlocv
    exact hlocv
  obtain ⟨vrev, hvrev, hnrev⟩ := atPath_ok hrev
  rw [number_ok hnrev] at hvrev
  obtain ⟨vn, hvn, hsn⟩ := atPath_ok hnm
  rw [string_ok hsn] at hvn
  have hvn2 : getPath raw ["fields", "name", locale] = some (.str nm) := by
    rw [getPath_cons_of hfj]; exact hvn
  obtain ⟨vst, hvst, hsst⟩ := atPath_ok hst
  rw [string_ok hsst] at hvst
  have hvst2 : getPath raw ["fields", "startTime", locale]
      = some (.str stv) := by
    rw [getPath_cons_of hfj]; exact hvst
  obtain ⟨ven, hven, hsen⟩ := atPath_ok hend
  rw [string_ok hsen] at hven
  have hven2 : getPath raw ["fields", "endTime", locale]
      = some (.str env) := by
    rw [getPath_cons_of hfj]; exact hven
  obtain ⟨vlnm, hvlnm, hslnm⟩ := atPath_ok hlnm
  rw [string_ok hslnm] at hvlnm
  have hvlnm2 : getPath raw ["fields", "locationName", locale]
      = some (.str lnm) := by
    rw [getPath_cons_of hfj]; exact hvlnm
  obtain ⟨vdesc, hvdesc, hsdesc⟩ := atPath_ok hdesc
  rw [string_ok hsdesc] at hvdesc
  have hvdesc2 : getPath raw ["fields", "eventDescription", locale]
      = some (.str desc) := by
    rw [getPath_cons_of hfj]; exact hvdesc
  obtain ⟨vplow, hvplow, hnplow⟩ := atPath_ok hplow
  rw [number_ok hnplow] at hvplow
  have hvplow2 : getPath raw ["fields", "eventPriceLow", locale]
      = some (.num plow) := by
    rw [getPath_cons_of hfj]; exact hvplow
  obtain ⟨vphigh, hvphigh, hnphigh⟩ := atPath_ok hphigh
  rw [number_ok hnphigh] at hvphigh
  have hvphigh2 : getPath raw ["fields", "eventPriceHigh", locale]
      = some (.num phigh) := by
    rw [getPath_cons_of hfj]; exact hvphigh
  obtain ⟨w, hw, hinner⟩ := atPath_ok hlocat
  obtain ⟨lat, hlat, hinner⟩ := bind_ok hinner
  obtain ⟨lon, hlon, hinner⟩ := bind_ok hinner
  have hll := pure_ok hinner
  subst hll
  obtain ⟨vlat, hvlat, hnlat⟩ := field_ok hlat
  rw [number_ok hnlat] at hvlat
  obtain ⟨vlon, hvlon, hnlon⟩ := field_ok hlon
  rw [number_ok hnlon] at hvlon
  have hlatpath : getPath raw ["fields", "location", locale, "lat"]
      = some (.num lat) := by
    rw [getPath_cons_of hfj]
    have happ := getPath_append ["location", locale] fj ["lat"]
    rw [show (["location", locale] ++ ["lat"] : List String)
        = ["location", locale, "lat"] from rfl] at happ
    rw [happ, hw]
    simpa using hvlat
  have hlonpath : getPath raw ["fields", "location", locale, "lon"]
      = some (.num lon) := by
    rw [getPath_cons_of hfj]
    have happ := getPath_append ["location", locale] fj ["lon"]
    rw [show (["location", locale] ++ ["lon"] : List String)
        = ["location", locale, "lon"] from rfl] at happ
    rw [happ, hw]
    simpa using hvlon
  obtain ⟨vc, hvc, harr⟩ := atPath_ok hcats
  obtain ⟨items, hitems, hall⟩ := array_ok harr
  subst hitems
  have hcatpath : getPath raw ["fields", "eventCategories", locale]
      = some (.arr items) := by
    rw [getPath_cons_of hfj]; exact hvc
  refine ⟨hvct, rfl, hlv.symm, hvid, hvrev, hvn2, hvst2, hven2, hvlnm2,
    hvdesc2, hvplow2, hvphigh2, hlatpath, hlonpath, items, hcatpath, ?_⟩
  intro c hc
  obtain ⟨y, hy⟩ := hall c hc
  simp only [decodeEventCategoryName] at hy
  obtain ⟨hyn, hjs⟩ := oneOf_value_ok hy
  exact ⟨y, hyn, hjs⟩

/-- Witness for C8: a fully populated record decodes, and the theorem then
reports its content-type path (projected to the first conjunct). -/
theorem decodeEvent_all_required_witness :
    getPath rawGood ["sys", "contentType", "sys", "id"]
      = some (.str "event") :=
  (decodeEvent_all_required "en-GB" rawGood eGood rfl).1

/-! ## Claim on the composite event filter -/

/-- C9.  With no chosen date filter and an empty or full chosen time-bucket
set, the built predicate accepts every event; in general the predicate is
the conjunction of the date-range component and a time component that holds
iff the bucket set is trivial (empty or full) or the event matches at least
one chosen bucket. -/
theorem buildEventFilter_spec (state : State) (staged : Bool) (e : Event) :
    ((selectDateFilter state staged = none
        ∧ (selectTimeFilter state staged = ∅
            ∨ selectTimeFilter state staged = Finset.univ)) →
      buildEventFilter state staged e = true)
    ∧ (buildEventFilter state staged e = true ↔
        (∀ range, selectDateFilter state staged = some range →
            buildDateRangeFilter range e = true)
        ∧ ((selectTimeFilter state staged = ∅
              ∨ selectTimeFilter state staged = Finset.univ)
            ∨ ∃ b ∈ selectTimeFilter state staged,
                buildTimeFilter b e = true)) := by
  unfold buildEventFilter
  cases hd : selectDateFilter state staged with
  | none =>
    by_cases ht : selectTimeFilter state staged = ∅
        ∨ selectTimeFilter state staged = Finset.univ
    · simp [ht]
    · simp [ht, hd]
  | some range =>
    by_cases ht : selectTimeFilter state staged = ∅
        ∨ selectTimeFilter state staged = Finset.univ
    · simp [ht, hd]
    · simp [ht, hd]

/-- Witness for C9: a state with no date filter and the full bucket set
accepts the sample event. -/
theorem buildEventFilter_spec_witness :
    buildEventFilter stateW false evA = true :=
  (buildEventFilter_spec stateW false evA).1 ⟨rfl, Or.inr rfl⟩

/-! ## Claim on tag toggling -/

/-- C10.  Toggling a tag removes it when present and adds it when absent
(on a fresh set, the input being immutable), and toggling twice with the
same value restores the original set. -/
theorem toggleTagFilter_spec (s : Finset String) (v : String) :
    (v ∈ s → toggleTagFilter s v = s.erase v)
    ∧ (v ∉ s → toggleTagFilter s v = insert v s)
    ∧ toggleTagFilter (toggleTagFilter s v) v = s := by
  refine ⟨fun h => if_pos h, fun h => if_neg h, ?_⟩
  by_cases h : v ∈ s
  · have h1 : toggleTagFilter s v = s.erase v := if_pos h
    rw [h1, toggleTagFilter, if_neg (Finset.not_mem_erase v s),
      Finset.insert_erase h]
  · have h1 : toggleTagFilter s v = insert v s := if_neg h
    rw [h1, toggleTagFilter, if_pos (Finset.mem_insert_self v s),
      Finset.erase_insert h]

/-- Witness for C10: toggling "music" twice on the empty set restores the
empty set. -/
theorem toggleTagFilter_spec_witness :
    toggleTagFilter (toggleTagFilter ∅ "music") "music" = ∅ :=
  (toggleTagFilter_spec ∅ "music").2.2

end PrideEvents
